import Mathlib

set_option maxRecDepth 8000

/-!
Shallow embedding of `src/convert_aistudio_to_openwebui.py`, the converter
from the AIStudio chat-export format to the OpenWebUI chat format.

Conventions of the embedding:

* A Python dict field that the code reads with `.get(key, default)` is
  modelled as an `Option` field of a structure; absence of the key is `none`.
* `uuid.uuid4()` is modelled as a stream `uuid : Nat → String` of fresh
  identifiers, consumed in call order: index 0 is the chat id, index 1 the
  user id, and index `2 + k` the id of the k-th produced message.  The real
  generator returns pairwise distinct, nonempty strings; theorems that need
  those facts take them as explicit hypotheses on the stream.
* `int(datetime.now().timestamp())` is modelled as a parameter
  `base_timestamp : Nat`, read once per conversion.
* The Python dict `messages` is modelled as an association list with keys in
  insertion order (`dictInsert` overwrites in place, as a Python dict does).
  The aliasing between a dict value and the corresponding entry of
  `messages_list` (the same object in Python) is modelled by applying the
  `childrenIds` append to the entry with the parent key in both structures.
* Python truthiness of an optional string (`if filename:`) is modelled by
  `optStrTruthy`; truthiness of a list is the test against `[]`.
-/

/-- One element of a thought chunk's `parts` list: keys `thought` (line 53)
and `text` (line 53) of the part dict. -/
structure ChunkPart where
  thought : Option Bool
  text : Option String
deriving DecidableEq, Inhabited

/-- One element of `chunkedPrompt.chunks`: keys `isThought` (line 45),
`text` (lines 47, 68), `parts` (line 50) and `role` (line 65). -/
structure Chunk where
  isThought : Option Bool
  text : Option String
  parts : Option (List ChunkPart)
  role : Option String
deriving DecidableEq, Inhabited

/-- The `runSettings` object (lines 92, 127): optional `model` key. -/
structure RunSettings where
  model : Option String
deriving DecidableEq, Inhabited

/-- The `chunkedPrompt` object (line 19): optional `chunks` key. -/
structure ChunkedPrompt where
  chunks : Option (List Chunk)
deriving DecidableEq, Inhabited

/-- A parsed AIStudio document (the `aistudio_data` argument). -/
structure AIStudioData where
  chunkedPrompt : Option ChunkedPrompt
  runSettings : Option RunSettings
deriving DecidableEq, Inhabited

/-- A produced OpenWebUI message (lines 81-95).  The four `Option` fields at
the end model dict keys that the code adds only for assistant messages
(lines 91-95); for a user message they are absent (`none`). -/
structure Message where
  id : String
  parentId : Option String
  childrenIds : List String
  role : String
  content : String
  timestamp : Nat
  model : Option String
  modelName : Option String
  modelIdx : Option Nat
  done : Option Bool
deriving DecidableEq, Inhabited

/-- The `history` object (lines 129-132).  `currentId` is `Option String`
because the Python value is `parent_id`, which is `None` when no message was
produced (serialized as JSON `null`). -/
structure History where
  messages : List (String × Message)
  currentId : Option String
deriving DecidableEq, Inhabited

/-- The nested `chat` object (lines 124-137).  `params` and `files` are
always-empty placeholders in the source; they are given simple element types
here. -/
structure ChatBody where
  id : String
  title : String
  models : List String
  params : List (String × String)
  history : History
  messages : List Message
  tags : List String
  timestamp : Nat
  files : List String
deriving DecidableEq, Inhabited

/-- The `meta` object (lines 142-144). -/
structure ChatMeta where
  tags : List String
deriving DecidableEq, Inhabited

/-- One OpenWebUI chat record (lines 120-145). -/
structure OpenWebUIChat where
  id : String
  user_id : String
  title : String
  chat : ChatBody
  updated_at : Nat
  created_at : Nat
  archived : Bool
  pinned : Bool
  meta : ChatMeta
deriving DecidableEq, Inhabited

/-- Membership test of a key in the insertion-ordered dict model
(`parent_id in messages`, line 104). -/
def dictContains : List (String × Message) → String → Bool
  | [], _ => false
  | p :: rest, k => if p.1 = k then true else dictContains rest k

/-- Insertion into the dict model (`messages[message_id] = message`,
line 98): overwrite in place when the key exists, else append. -/
def dictInsert : List (String × Message) → String → Message → List (String × Message)
  | [], k, v => [(k, v)]
  | p :: rest, k, v => if p.1 = k then (k, v) :: rest else p :: dictInsert rest k v

/-- The mutation `childrenIds.append(message_id)` (line 105) on one message. -/
def addChildMsg (m : Message) (cid : String) : Message :=
  { m with childrenIds := m.childrenIds ++ [cid] }

/-- Effect of line 105 on the dict: the value stored under the parent key
gets the child id appended (keys are unique, so at most one entry changes). -/
def appendChildDict (d : List (String × Message)) (pid cid : String) : List (String × Message) :=
  d.map fun p => if p.1 = pid then (p.1, addChildMsg p.2 cid) else p

/-- Effect of line 105 on `messages_list`: in Python the list entry is the
same object as the dict value, so the entry whose id is the parent id gets
the child id appended. -/
def appendChildList (l : List Message) (pid cid : String) : List Message :=
  l.map fun m => if m.id = pid then addChildMsg m cid else m

/-- Python truthiness of an optional string (`if filename:`, line 111):
false for `None` and for the empty string. -/
def optStrTruthy : Option String → Bool
  | none => false
  | some s => decide (s ≠ "")

/-- Thought-text extraction for a thought chunk (lines 46-55): start from the
flat `text` field; if the `parts` list is nonempty and at least one part is
flagged as thought, replace it by the flagged part texts joined with a blank
line. -/
def thoughtTextOf (c : Chunk) : String :=
  let thought_content := c.text.getD ""
  let thought_parts := c.parts.getD []
  if thought_parts.isEmpty then thought_content
  else
    let thought_texts := (thought_parts.filter fun p => p.thought.getD false).map
      fun p => p.text.getD ""
    if thought_texts.isEmpty then thought_content
    else String.intercalate "\n\n" thought_texts

/-- The rendered reasoning block (line 75) around the joined thought text,
without the trailing blank line (the code appends the block, then a blank
line, then the original content). -/
def reasoningBlock (combined : String) : String :=
  "<details type=\"reasoning\" done=\"true\" duration=\"5\">\n<summary>Thought for 5 seconds</summary>\n"
    ++ combined ++ "\n</details>"

/-- Role determination (line 65): `"user" if chunk.get("role") == "user"
else "assistant"`. -/
def roleOf (c : Chunk) : String :=
  if c.role = some "user" then "user" else "assistant"

/-- Loop state of the conversion (lines 29-42): the message dict, the message
list, the current parent pointer, the pending thought buffer, and the message
index. -/
structure ConvState where
  messages : List (String × Message)
  messages_list : List Message
  parent_id : Option String
  pending_thoughts : List String
  message_index : Nat
deriving DecidableEq, Inhabited

/-- Initial loop state (lines 29-42). -/
def initConvState : ConvState :=
  { messages := [], messages_list := [], parent_id := none,
    pending_thoughts := [], message_index := 0 }

/-- The message built for a turn chunk (lines 62-95).  Its id is the next
fresh uuid; its content gets the rendered pending thoughts prepended when the
role is assistant and the buffer is nonempty (lines 71-76); the four
assistant-only fields are present exactly when the role is assistant
(lines 90-95). -/
def turnMessage (model_str : String) (base_timestamp : Nat) (uuid : Nat → String)
    (st : ConvState) (chunk : Chunk) : Message :=
  { id := uuid (2 + st.message_index),
    parentId := st.parent_id,
    childrenIds := [],
    role := roleOf chunk,
    content :=
      if roleOf chunk = "assistant" ∧ st.pending_thoughts ≠ [] then
        reasoningBlock (String.intercalate "\n\n" st.pending_thoughts) ++ "\n\n"
          ++ chunk.text.getD ""
      else chunk.text.getD "",
    timestamp := base_timestamp + st.message_index,
    model := if roleOf chunk = "assistant" then some model_str else none,
    modelName := if roleOf chunk = "assistant" then some "Converted from AIStudio" else none,
    modelIdx := if roleOf chunk = "assistant" then some 0 else none,
    done := if roleOf chunk = "assistant" then some true else none }

/-- Processing of one turn chunk (lines 60-108): insert the new message into
the dict and the list, link it as child of the previous message when the
parent pointer is truthy and present in the dict (lines 104-105), advance the
parent pointer and the message index, and clear the thought buffer exactly
when the buffer was consumed (line 78). -/
def turnStep (model_str : String) (base_timestamp : Nat) (uuid : Nat → String)
    (st : ConvState) (chunk : Chunk) : ConvState :=
  let message := turnMessage model_str base_timestamp uuid st chunk
  let msgs1 := dictInsert st.messages message.id message
  let list1 := st.messages_list ++ [message]
  let upd : List (String × Message) × List Message :=
    match st.parent_id with
    | none => (msgs1, list1)
    | some pid =>
      if pid ≠ "" ∧ dictContains msgs1 pid = true then
        (appendChildDict msgs1 pid message.id, appendChildList list1 pid message.id)
      else (msgs1, list1)
  { messages := upd.1,
    messages_list := upd.2,
    parent_id := some message.id,
    pending_thoughts :=
      if roleOf chunk = "assistant" ∧ st.pending_thoughts ≠ [] then []
      else st.pending_thoughts,
    message_index := st.message_index + 1 }

/-- One iteration of the chunk loop (lines 43-108): a thought chunk only
appends its extracted text to the buffer (lines 45-58); any other chunk
produces a message. -/
def processChunk (model_str : String) (base_timestamp : Nat) (uuid : Nat → String)
    (st : ConvState) (chunk : Chunk) : ConvState :=
  if chunk.isThought.getD false then
    { st with pending_thoughts := st.pending_thoughts ++ [thoughtTextOf chunk] }
  else
    turnStep model_str base_timestamp uuid st chunk

/-- Chunk extraction (line 19):
`aistudio_data.get("chunkedPrompt", {}).get("chunks", [])`. -/
def chunksOf (data : AIStudioData) : List Chunk :=
  match data.chunkedPrompt with
  | none => []
  | some cp => cp.chunks.getD []

/-- Model-identifier resolution (lines 92, 127):
`aistudio_data.get("runSettings", {}).get("model", "unknown")`. -/
def resolveModel (data : AIStudioData) : String :=
  match data.runSettings with
  | none => "unknown"
  | some rs => rs.model.getD "unknown"

/-- `os.path.basename` on a POSIX path: the component after the last slash
(empty when the path ends in a slash).  Computed by scanning the characters
and restarting the accumulator at every slash. -/
def basename (p : String) : String :=
  String.mk (p.data.foldl (fun acc c => if c = '/' then [] else acc ++ [c]) [])

/-- The root part of `os.path.splitext`: cut at the last dot, unless every
character before that dot is itself a dot (so names of leading dots keep
their full form). -/
def splitextRoot (p : String) : String :=
  let cs := p.data
  let revTail := cs.reverse.takeWhile fun c => c != '.'
  if revTail.length = cs.length then p
  else
    let d := cs.length - revTail.length - 1
    if (cs.take d).any (fun c => c != '.') then String.mk (cs.take d) else p

/-- Title cleaning (line 113): `os.path.splitext(os.path.basename(f))[0]`. -/
def stripTitle (fn : String) : String := splitextRoot (basename fn)

/-- The core conversion function (lines 7-147). -/
def convert_aistudio_to_openwebui (uuid : Nat → String) (base_timestamp : Nat)
    (aistudio_data : AIStudioData) (filename : Option String) : List OpenWebUIChat :=
  let chunks := chunksOf aistudio_data
  if chunks = [] then []
  else
    let chat_id := uuid 0
    let user_id := uuid 1
    let model_str := resolveModel aistudio_data
    let final := chunks.foldl (processChunk model_str base_timestamp uuid) initConvState
    let title :=
      if optStrTruthy filename then stripTitle (filename.getD "")
      else
        match final.messages_list with
        | [] => "AIStudio Conversation"
        | m :: _ =>
          if m.role = "user" then
            if m.content.length > 50 then m.content.take 50 ++ "..." else m.content
          else "AIStudio Conversation"
    [{ id := chat_id,
       user_id := user_id,
       title := title,
       chat :=
         { id := "",
           title := title,
           models := [model_str],
           params := [],
           history := { messages := final.messages, currentId := final.parent_id },
           messages := final.messages_list,
           tags := [],
           timestamp := base_timestamp,
           files := [] },
       updated_at := base_timestamp,
       created_at := base_timestamp,
       archived := false,
       pinned := false,
       meta := { tags := ["aistudio", "converted"] } }]

/-- Substitute the default that each `.get` call would supply for every
absent field of a part. -/
def fillPart (p : ChunkPart) : ChunkPart :=
  { thought := some (p.thought.getD false), text := some (p.text.getD "") }

/-- Substitute defaults for every absent field of a chunk.  An absent role
behaves exactly like the explicit role `"assistant"` (any value other than
`"user"` is coerced to assistant). -/
def fillChunk (c : Chunk) : Chunk :=
  { isThought := some (c.isThought.getD false),
    text := some (c.text.getD ""),
    parts := some ((c.parts.getD []).map fillPart),
    role := some (c.role.getD "assistant") }

/-- Substitute defaults for every absent field of a document. -/
def fillDefaults (d : AIStudioData) : AIStudioData :=
  { chunkedPrompt := some { chunks := some ((chunksOf d).map fillChunk) },
    runSettings := some { model := some (resolveModel d) } }

/-! ### Basic lemmas about the step function -/

lemma processChunk_isThought (m : String) (b : Nat) (u : Nat → String) (st : ConvState)
    (c : Chunk) (h : c.isThought.getD false = true) :
    processChunk m b u st c =
      { st with pending_thoughts := st.pending_thoughts ++ [thoughtTextOf c] } := by
  simp [processChunk, h]

lemma processChunk_turn (m : String) (b : Nat) (u : Nat → String) (st : ConvState)
    (c : Chunk) (h : c.isThought.getD false = false) :
    processChunk m b u st c = turnStep m b u st c := by
  simp [processChunk, h]

lemma roleOf_of_ne_user (c : Chunk) (h : c.role ≠ some "user") : roleOf c = "assistant" := by
  simp [roleOf, h]

lemma roleOf_of_user (c : Chunk) (h : c.role = some "user") : roleOf c = "user" := by
  simp [roleOf, h]

lemma addChildMsg_id (mm : Message) (cid : String) : (addChildMsg mm cid).id = mm.id := rfl

/-- The last element of the message list after a turn step is the new message
up to a possible `childrenIds` update; every other field is that of
`turnMessage`. -/
lemma turnStep_getLast (m : String) (b : Nat) (u : Nat → String) (st : ConvState)
    (c : Chunk) :
    ∃ mm, (turnStep m b u st c).messages_list.getLast? = some mm ∧
      mm.id = (turnMessage m b u st c).id ∧
      mm.parentId = (turnMessage m b u st c).parentId ∧
      mm.role = (turnMessage m b u st c).role ∧
      mm.content = (turnMessage m b u st c).content ∧
      mm.timestamp = (turnMessage m b u st c).timestamp ∧
      mm.model = (turnMessage m b u st c).model ∧
      mm.modelName = (turnMessage m b u st c).modelName ∧
      mm.modelIdx = (turnMessage m b u st c).modelIdx ∧
      mm.done = (turnMessage m b u st c).done := by
  rcases hp : st.parent_id with _ | pid
  · refine ⟨turnMessage m b u st c, ?_, rfl, rfl, rfl, rfl, rfl, rfl, rfl, rfl, rfl⟩
    simp [turnStep, hp, List.getLast?_concat]
  · by_cases hg : pid ≠ "" ∧
        dictContains (dictInsert st.messages (turnMessage m b u st c).id
          (turnMessage m b u st c)) pid = true
    · refine ⟨if (turnMessage m b u st c).id = pid
          then addChildMsg (turnMessage m b u st c) (turnMessage m b u st c).id
          else turnMessage m b u st c, ?_, ?_⟩
      · simp only [turnStep, hp]
        rw [if_pos hg]
        simp [appendChildList, List.map_append, List.getLast?_concat]
      · split <;> simp [addChildMsg]
    · refine ⟨turnMessage m b u st c, ?_, rfl, rfl, rfl, rfl, rfl, rfl, rfl, rfl, rfl⟩
      simp only [turnStep, hp]
      rw [if_neg hg]
      simp [List.getLast?_concat]

lemma turnStep_pending (m : String) (b : Nat) (u : Nat → String) (st : ConvState)
    (c : Chunk) :
    (turnStep m b u st c).pending_thoughts =
      if roleOf c = "assistant" ∧ st.pending_thoughts ≠ [] then []
      else st.pending_thoughts := rfl

lemma turnStep_parent_id (m : String) (b : Nat) (u : Nat → String) (st : ConvState)
    (c : Chunk) :
    (turnStep m b u st c).parent_id = some (u (2 + st.message_index)) := rfl

/-! ### Concrete inputs used by witnesses and counterexamples -/

/-- A concrete stand-in for `uuid.uuid4()`: the n-th identifier is a string
of n + 1 letters, so identifiers are pairwise distinct and nonempty. -/
def uuidA : Nat → String := fun n => String.mk (List.replicate (n + 1) 'a')

lemma uuidA_inj : Function.Injective uuidA := by
  intro i j h
  have h2 := congrArg String.length h
  simp [uuidA, String.length] at h2
  omega

lemma uuidA_ne : ∀ n, uuidA n ≠ "" := by
  intro n h
  have h2 := congrArg String.length h
  simp [uuidA, String.length] at h2

/-- A user turn chunk with the given text. -/
def chunkUser (t : String) : Chunk :=
  { isThought := none, text := some t, parts := none, role := some "user" }

/-- An assistant (model) turn chunk with the given text. -/
def chunkAsst (t : String) : Chunk :=
  { isThought := some false, text := some t, parts := none, role := some "model" }

/-- A thought chunk with flat text. -/
def chunkThought (t : String) : Chunk :=
  { isThought := some true, text := some t, parts := none, role := some "model" }

/-- The chunk list of the small example conversation. -/
def chunksA : List Chunk := [chunkUser "hi", chunkThought "think", chunkAsst "resp"]

/-- A small conversation: user turn, thought, assistant turn. -/
def dataA : AIStudioData :=
  { chunkedPrompt := some { chunks := some chunksA },
    runSettings := some { model := some "gemini" } }

/-- A conversation whose only chunk is a thought chunk. -/
def dataT : AIStudioData :=
  { chunkedPrompt := some { chunks := some [chunkThought "deliberation"] },
    runSettings := none }

/-- The record produced for `dataA` with no filename hint. -/
def recA : OpenWebUIChat :=
  (convert_aistudio_to_openwebui uuidA 7 dataA none).headD default

lemma recA_mem : recA ∈ convert_aistudio_to_openwebui uuidA 7 dataA none := by
  decide

/-- The record produced for `dataA` with a filename hint. -/
def recB : OpenWebUIChat :=
  (convert_aistudio_to_openwebui uuidA 7 dataA (some "exports/chat_2024.json")).headD default

lemma recB_mem :
    recB ∈ convert_aistudio_to_openwebui uuidA 7 dataA (some "exports/chat_2024.json") := by
  decide

/-- The record produced for the thought-only conversation `dataT`. -/
def recT : OpenWebUIChat :=
  (convert_aistudio_to_openwebui uuidA 7 dataT none).headD default

lemma recT_mem : recT ∈ convert_aistudio_to_openwebui uuidA 7 dataT none := by
  decide

/-! ### Claim C8 -/

/-- Claim C8: a source whose chunk list is empty or absent converts to the
empty list, and a source with at least one chunk converts to a list of
exactly one record.  (The Lean function is total, which is the embedded form
of the code raising no error.) -/
theorem claim_C8_empty_source (u : Nat → String) (b : Nat) (data : AIStudioData)
    (fn : Option String) :
    (convert_aistudio_to_openwebui u b data fn).length =
      if chunksOf data = [] then 0 else 1 := by
  by_cases h : chunksOf data = [] <;>
    simp [convert_aistudio_to_openwebui, h]

/-! ### Claim C3 -/

lemma foldl_allThought (m : String) (b : Nat) (u : Nat → String) :
    ∀ (l : List Chunk) (st : ConvState),
      (∀ c ∈ l, c.isThought.getD false = true) →
      (List.foldl (processChunk m b u) st l).parent_id = st.parent_id ∧
      (List.foldl (processChunk m b u) st l).messages_list = st.messages_list := by
  intro l
  induction l with
  | nil => intro st _; exact ⟨rfl, rfl⟩
  | cons c cs ih =>
    intro st h
    have hc := h c (List.mem_cons_self c cs)
    rw [List.foldl_cons, processChunk_isThought m b u st c hc]
    exact ih _ (fun x hx => h x (List.mem_cons_of_mem c hx))

/-- Claim C3 counterexample: for the one-chunk, all-thought conversation
`dataT` a record is produced, and its `history.currentId` is `none` (Python
`None`, JSON `null`), which is not the empty string. -/
theorem claim_C3_counterexample :
    ((convert_aistudio_to_openwebui uuidA 7 dataT none).map fun r => r.chat.history.currentId)
        = [none] ∧
    (none : Option String) ≠ some "" := ⟨by decide, by decide⟩

/-- Claim C3 amended: for every source conversation with at least one chunk
but whose chunks are all thought chunks, the returned record has
`history.currentId` equal to `none` (serialized as `null`), not the empty
string, and its message list is empty. -/
theorem claim_C3_amended (u : Nat → String) (b : Nat) (d : AIStudioData) (fn : Option String)
    (hall : ∀ c ∈ chunksOf d, c.isThought.getD false = true)
    (rec : OpenWebUIChat) (hrec : rec ∈ convert_aistudio_to_openwebui u b d fn) :
    rec.chat.history.currentId = none ∧ rec.chat.messages = [] := by
  unfold convert_aistudio_to_openwebui at hrec
  by_cases h : chunksOf d = []
  · rw [if_pos h] at hrec
    simp at hrec
  · rw [if_neg h, List.mem_singleton] at hrec
    subst hrec
    have hft := foldl_allThought (resolveModel d) b u (chunksOf d) initConvState hall
    exact ⟨by simpa [initConvState] using hft.1, by simpa [initConvState] using hft.2⟩

/-- Witness for the amended claim C3 at the concrete input `dataT`. -/
theorem claim_C3_witness :
    recT.chat.history.currentId = none ∧ recT.chat.messages = [] :=
  claim_C3_amended uuidA 7 dataT none (by decide) recT recT_mem

/-! ### Claim C4 -/

/-- A thought chunk with a flat text and a parts list none of whose parts is
flagged as thought. -/
def chunkPartsNoFlag : Chunk :=
  { isThought := some true, text := some "flat",
    parts := some [{ thought := some false, text := some "x" }], role := none }

/-- Claim C4 counterexample: for a thought chunk that exposes a parts list in
which no part is flagged as thought, the claim predicts that the empty
concatenation (the empty string) is appended to the thought buffer; the code
instead falls back to the chunk's flat text field and appends `"flat"`. -/
theorem claim_C4_counterexample :
    (processChunk "unknown" 0 uuidA initConvState chunkPartsNoFlag).pending_thoughts = ["flat"]
      ∧ (["flat"] : List String) ≠ [""] := ⟨by decide, by decide⟩

/-- Claim C4 amended: for every thought chunk, the text appended to the
thought buffer is: if the chunk exposes a nonempty parts list in which at
least one part is flagged as thought, the blank-line-joined concatenation of
the texts of the flagged parts, in part order; otherwise (no parts list,
empty parts list, or no flagged part) the chunk's flat text field (empty
string if absent). -/
theorem claim_C4_amended (m : String) (b : Nat) (u : Nat → String) (st : ConvState)
    (c : Chunk) (h : c.isThought.getD false = true) :
    (processChunk m b u st c).pending_thoughts = st.pending_thoughts ++ [thoughtTextOf c] ∧
    thoughtTextOf c =
      (if c.parts.getD [] ≠ [] ∧ (c.parts.getD []).any (fun p => p.thought.getD false) = true
       then
         String.intercalate "\n\n"
           (((c.parts.getD []).filter fun p => p.thought.getD false).map fun p => p.text.getD "")
       else c.text.getD "") := by
  refine ⟨by rw [processChunk_isThought m b u st c h], ?_⟩
  simp only [thoughtTextOf]
  cases hp : c.parts.getD [] with
  | nil => simp
  | cons q qs =>
    by_cases hany : (q :: qs).any (fun p => p.thought.getD false) = true
    · have hne : ((q :: qs).filter fun p => p.thought.getD false) ≠ [] := by
        rw [List.any_eq_true] at hany
        obtain ⟨x, hx, hpx⟩ := hany
        intro hnil
        have hmemf : x ∈ (q :: qs).filter (fun p => p.thought.getD false) :=
          List.mem_filter.mpr ⟨hx, by simpa using hpx⟩
        rw [hnil] at hmemf
        simp at hmemf
      simp [hany, hne, List.isEmpty_iff, List.map_eq_nil_iff]
    · have hfeq : ((q :: qs).filter fun p => p.thought.getD false) = [] := by
        rw [List.filter_eq_nil_iff]
        intro a ha
        by_contra hcon
        exact hany (List.any_eq_true.mpr ⟨a, ha, by simpa using hcon⟩)
      simp [hany, hfeq]

/-- A thought chunk with both flagged and unflagged parts. -/
def chunkPartsFlagged : Chunk :=
  { isThought := some true, text := some "flat",
    parts := some [{ thought := some true, text := some "x" },
      { thought := some false, text := some "y" },
      { thought := some true, text := some "z" }], role := none }

/-- Witness for the amended claim C4 at a concrete flagged-parts chunk. -/
theorem claim_C4_witness :
    (processChunk "g" 3 uuidA initConvState chunkPartsFlagged).pending_thoughts
        = initConvState.pending_thoughts ++ [thoughtTextOf chunkPartsFlagged] ∧
    thoughtTextOf chunkPartsFlagged =
      (if chunkPartsFlagged.parts.getD [] ≠ [] ∧
          (chunkPartsFlagged.parts.getD []).any (fun p => p.thought.getD false) = true
       then
         String.intercalate "\n\n"
           (((chunkPartsFlagged.parts.getD []).filter fun p => p.thought.getD false).map
             fun p => p.text.getD "")
       else chunkPartsFlagged.text.getD "") :=
  claim_C4_amended "g" 3 uuidA initConvState chunkPartsFlagged (by decide)

/-! ### Claims C1, C6, C10 -/

lemma roleOf_eq_user_iff (c : Chunk) : roleOf c = "user" ↔ c.role = some "user" := by
  by_cases h : c.role = some "user"
  · simp [roleOf, h]
  · rw [roleOf_of_ne_user c h]
    constructor
    · intro hh
      exact absurd hh (by decide)
    · intro hh
      exact absurd hh h

/-- Claim C1: when a turn chunk whose role is not `"user"` is processed while
the thought buffer is nonempty, the produced message is an assistant message
whose content is the reasoning block around the buffered thoughts joined with
a blank line, followed by a blank line, followed by the chunk's own text; the
buffer is empty afterwards, so a subsequent assistant chunk processed with no
intervening thought chunk gets plain, unprefixed content. -/
theorem claim_C1_thought_prefix (m : String) (b : Nat) (u : Nat → String) (st : ConvState)
    (c c2 : Chunk)
    (hc : c.isThought.getD false = false)
    (hrole : c.role ≠ some "user")
    (hp : st.pending_thoughts ≠ [])
    (hc2 : c2.isThought.getD false = false)
    (hrole2 : c2.role ≠ some "user") :
    (∃ mm, (processChunk m b u st c).messages_list.getLast? = some mm ∧
        mm.role = "assistant" ∧
        mm.content = reasoningBlock (String.intercalate "\n\n" st.pending_thoughts)
          ++ "\n\n" ++ c.text.getD "") ∧
    (processChunk m b u st c).pending_thoughts = [] ∧
    (∃ mm2, (processChunk m b u (processChunk m b u st c) c2).messages_list.getLast? = some mm2
        ∧ mm2.content = c2.text.getD "") := by
  have hra := roleOf_of_ne_user c hrole
  have hra2 := roleOf_of_ne_user c2 hrole2
  have hpend : (processChunk m b u st c).pending_thoughts = [] := by
    rw [processChunk_turn m b u st c hc, turnStep_pending]
    simp [hra, hp]
  refine ⟨?_, hpend, ?_⟩
  · rw [processChunk_turn m b u st c hc]
    obtain ⟨mm, hL, _, _, hrl, hct, _, _, _, _⟩ := turnStep_getLast m b u st c
    refine ⟨mm, hL, ?_, ?_⟩
    · rw [hrl]
      simp [turnMessage, hra]
    · rw [hct]
      simp [turnMessage, hra, hp]
  · rw [processChunk_turn m b u _ c2 hc2]
    obtain ⟨mm2, hL2, _, _, _, hct2, _, _, _, _⟩ :=
      turnStep_getLast m b u (processChunk m b u st c) c2
    refine ⟨mm2, hL2, ?_⟩
    rw [hct2]
    simp [turnMessage, hra2, hpend]

/-- The state used by processing-level witnesses: an empty conversion state
whose thought buffer holds two entries. -/
def stP : ConvState := { initConvState with pending_thoughts := ["alpha", "beta"] }

/-- Witness for claim C1 at a concrete state and chunks. -/
theorem claim_C1_witness :
    ((processChunk "g" 7 uuidA stP (chunkAsst "resp")).messages_list.getLast?).map
        Message.content =
      some (reasoningBlock (String.intercalate "\n\n" stP.pending_thoughts) ++ "\n\n"
        ++ (chunkAsst "resp").text.getD "") ∧
    (processChunk "g" 7 uuidA stP (chunkAsst "resp")).pending_thoughts = [] ∧
    ((processChunk "g" 7 uuidA (processChunk "g" 7 uuidA stP (chunkAsst "resp"))
        (chunkAsst "more")).messages_list.getLast?).map Message.content =
      some ((chunkAsst "more").text.getD "") := by
  obtain ⟨⟨mm, hL, _, hC⟩, hPend, ⟨mm2, hL2, hC2⟩⟩ :=
    claim_C1_thought_prefix "g" 7 uuidA stP (chunkAsst "resp") (chunkAsst "more")
      (by decide) (by decide) (by decide) (by decide) (by decide)
  refine ⟨?_, hPend, ?_⟩
  · rw [hL]
    simp [hC]
  · rw [hL2]
    simp [hC2]

/-- Claim C6: a turn chunk yields a user message exactly when its role field
is literally `"user"`; any other or missing role yields an assistant message
carrying the `model` (resolved from the run settings, `"unknown"` when
absent), the constant `modelName`, `modelIdx = 0` and `done = true`; a user
message carries none of those four fields. -/
theorem claim_C6_role_coercion (data : AIStudioData) (b : Nat) (u : Nat → String)
    (st : ConvState) (c : Chunk) (hc : c.isThought.getD false = false) :
    ∃ mm, (processChunk (resolveModel data) b u st c).messages_list.getLast? = some mm ∧
      (mm.role = "user" ↔ c.role = some "user") ∧
      (c.role = some "user" → mm.role = "user" ∧ mm.model = none ∧ mm.modelName = none ∧
        mm.modelIdx = none ∧ mm.done = none) ∧
      (c.role ≠ some "user" → mm.role = "assistant" ∧
        mm.model = some (resolveModel data) ∧
        mm.modelName = some "Converted from AIStudio" ∧
        mm.modelIdx = some 0 ∧ mm.done = some true) ∧
      (data.runSettings = none → resolveModel data = "unknown") ∧
      (∀ rs, data.runSettings = some rs → rs.model = none → resolveModel data = "unknown") ∧
      (∀ rs mo, data.runSettings = some rs → rs.model = some mo → resolveModel data = mo) := by
  rw [processChunk_turn _ b u st c hc]
  obtain ⟨mm, hL, _, _, hrl, _, _, hmo, hmn, hmi, hdn⟩ :=
    turnStep_getLast (resolveModel data) b u st c
  have hrole : mm.role = roleOf c := by
    rw [hrl]
    simp [turnMessage]
  refine ⟨mm, hL, ?_, ?_, ?_, ?_, ?_, ?_⟩
  · rw [hrole]
    exact roleOf_eq_user_iff c
  · intro hu
    have hru := roleOf_of_user c hu
    have hnotass : ¬ roleOf c = "assistant" := by
      rw [hru]
      decide
    refine ⟨by rw [hrole, hru], ?_, ?_, ?_, ?_⟩
    · rw [hmo]
      simp [turnMessage, hnotass]
    · rw [hmn]
      simp [turnMessage, hnotass]
    · rw [hmi]
      simp [turnMessage, hnotass]
    · rw [hdn]
      simp [turnMessage, hnotass]
  · intro hu
    have hru := roleOf_of_ne_user c hu
    refine ⟨by rw [hrole, hru], ?_, ?_, ?_, ?_⟩
    · rw [hmo]
      simp [turnMessage, hru]
    · rw [hmn]
      simp [turnMessage, hru]
    · rw [hmi]
      simp [turnMessage, hru]
    · rw [hdn]
      simp [turnMessage, hru]
  · intro hnone
    simp [resolveModel, hnone]
  · intro rs hrs hmod
    simp [resolveModel, hrs, hmod]
  · intro rs mo hrs hmod
    simp [resolveModel, hrs, hmod]

/-- Witness for claim C6: an assistant chunk under `dataA` run settings. -/
theorem claim_C6_witness :
    (processChunk (resolveModel dataA) 7 uuidA initConvState
        (chunkAsst "resp")).messages_list.getLast?.map
      (fun mm => (mm.role, mm.model, mm.modelName, mm.modelIdx, mm.done)) =
      some ("assistant", some "gemini", some "Converted from AIStudio", some 0, some true) := by
  obtain ⟨mm, hL, _, _, hasst, _, _, _⟩ :=
    claim_C6_role_coercion dataA 7 uuidA initConvState (chunkAsst "resp") (by decide)
  obtain ⟨h1, h2, h3, h4, h5⟩ := hasst (by decide)
  have hres : resolveModel dataA = "gemini" := rfl
  rw [hL]
  simp [h1, h2, h3, h4, h5, hres]

/-- Claim C10: a thought chunk whose extracted thought text is empty still
pushes the empty string onto the buffer, so the next assistant message is
prefixed with a reasoning block wrapping blank content rather than being left
plain. -/
theorem claim_C10_empty_thought (m : String) (b : Nat) (u : Nat → String) (st : ConvState)
    (c1 c2 : Chunk)
    (hp : st.pending_thoughts = [])
    (h1 : c1.isThought.getD false = true)
    (ht : thoughtTextOf c1 = "")
    (h2 : c2.isThought.getD false = false)
    (hr2 : c2.role ≠ some "user") :
    (processChunk m b u st c1).pending_thoughts = [""] ∧
    (∃ mm, (processChunk m b u (processChunk m b u st c1) c2).messages_list.getLast? = some mm
       ∧ mm.content = reasoningBlock "" ++ "\n\n" ++ c2.text.getD ""
       ∧ mm.content ≠ c2.text.getD "") := by
  have hra2 := roleOf_of_ne_user c2 hr2
  have hpend1 : (processChunk m b u st c1).pending_thoughts = [""] := by
    rw [processChunk_isThought m b u st c1 h1]
    simp [hp, ht]
  refine ⟨hpend1, ?_⟩
  rw [processChunk_turn m b u _ c2 h2]
  obtain ⟨mm, hL, _, _, _, hct, _, _, _, _⟩ :=
    turnStep_getLast m b u (processChunk m b u st c1) c2
  have hcontent : mm.content = reasoningBlock "" ++ "\n\n" ++ c2.text.getD "" := by
    rw [hct]
    have hone : String.intercalate "\n\n" [""] = "" := rfl
    simp [turnMessage, hra2, hpend1, hone]
  refine ⟨mm, hL, hcontent, ?_⟩
  rw [hcontent]
  intro heq
  have hlen := congrArg String.length heq
  rw [String.length_append, String.length_append] at hlen
  have h0 : 0 < (reasoningBlock "").length := by decide
  omega

/-- A thought chunk with no text at all. -/
def chunkThoughtEmpty : Chunk :=
  { isThought := some true, text := none, parts := none, role := none }

/-- Witness for claim C10 at a concrete empty thought chunk. -/
theorem claim_C10_witness :
    (processChunk "g" 7 uuidA initConvState chunkThoughtEmpty).pending_thoughts = [""] ∧
    ((processChunk "g" 7 uuidA (processChunk "g" 7 uuidA initConvState chunkThoughtEmpty)
        (chunkAsst "resp")).messages_list.getLast?).map Message.content =
      some (reasoningBlock "" ++ "\n\n" ++ (chunkAsst "resp").text.getD "") := by
  obtain ⟨hpend, ⟨mm, hL, hC, _⟩⟩ :=
    claim_C10_empty_thought "g" 7 uuidA initConvState chunkThoughtEmpty (chunkAsst "resp")
      (by decide) (by decide) (by decide) (by decide) (by decide)
  refine ⟨hpend, ?_⟩
  rw [hL]
  simp [hC]

/-! ### Claim C9 -/

lemma isThought_fillChunk (c : Chunk) :
    (fillChunk c).isThought.getD false = c.isThought.getD false := by
  simp [fillChunk]

lemma text_fillChunk (c : Chunk) : (fillChunk c).text.getD "" = c.text.getD "" := by
  simp [fillChunk]

lemma roleOf_fillChunk (c : Chunk) : roleOf (fillChunk c) = roleOf c := by
  cases hr : c.role with
  | none =>
    have hfc : (fillChunk c).role = some "assistant" := by simp [fillChunk, hr]
    simp only [roleOf, hfc, hr]
    decide
  | some r =>
    have hfc : (fillChunk c).role = some r := by simp [fillChunk, hr]
    simp only [roleOf, hfc, hr]

lemma thoughtTextOf_fillChunk (c : Chunk) : thoughtTextOf (fillChunk c) = thoughtTextOf c := by
  have h1 : ((fun p : ChunkPart => p.thought.getD false) ∘ fillPart)
      = (fun p : ChunkPart => p.thought.getD false) := by
    funext p
    simp [fillPart]
  have h2 : ((fun p : ChunkPart => p.text.getD "") ∘ fillPart)
      = (fun p : ChunkPart => p.text.getD "") := by
    funext p
    simp [fillPart]
  have h3 : ∀ l : List ChunkPart, (l.map fillPart).isEmpty = l.isEmpty := by
    intro l
    cases l <;> rfl
  simp only [thoughtTextOf, fillChunk, Option.getD_some]
  rw [List.filter_map, h1, List.map_map, h2, h3]

lemma turnMessage_fillChunk (m : String) (b : Nat) (u : Nat → String) (st : ConvState)
    (c : Chunk) : turnMessage m b u st (fillChunk c) = turnMessage m b u st c := by
  simp only [turnMessage, roleOf_fillChunk, text_fillChunk]

lemma turnStep_fillChunk (m : String) (b : Nat) (u : Nat → String) (st : ConvState)
    (c : Chunk) : turnStep m b u st (fillChunk c) = turnStep m b u st c := by
  simp only [turnStep, turnMessage_fillChunk, roleOf_fillChunk]

lemma processChunk_fillChunk (m : String) (b : Nat) (u : Nat → String) (st : ConvState)
    (c : Chunk) : processChunk m b u st (fillChunk c) = processChunk m b u st c := by
  by_cases h : c.isThought.getD false = true
  · have hf : (fillChunk c).isThought.getD false = true := by rw [isThought_fillChunk, h]
    rw [processChunk_isThought m b u st _ hf, processChunk_isThought m b u st c h,
      thoughtTextOf_fillChunk]
  · have h' : c.isThought.getD false = false := by simpa using h
    have hf : (fillChunk c).isThought.getD false = false := by rw [isThought_fillChunk, h']
    rw [processChunk_turn m b u st _ hf, processChunk_turn m b u st c h', turnStep_fillChunk]

lemma foldl_fillChunk (m : String) (b : Nat) (u : Nat → String) :
    ∀ (l : List Chunk) (st : ConvState),
      List.foldl (processChunk m b u) st (l.map fillChunk) =
        List.foldl (processChunk m b u) st l := by
  intro l
  induction l with
  | nil => intro st; rfl
  | cons c cs ih =>
    intro st
    rw [List.map_cons, List.foldl_cons, List.foldl_cons, processChunk_fillChunk]
    exact ih _

/-- Claim C9: the conversion function is total (it is a Lean function), and
missing fields degrade to their defaults: converting a document in which
every absent field has been replaced by the default that `.get` would supply
(empty string for text, `false` for flags, `"unknown"` for the model,
assistant for the role) yields exactly the same result as converting the
original document. -/
theorem claim_C9_total_defaults (u : Nat → String) (b : Nat) (d : AIStudioData)
    (fn : Option String) :
    convert_aistudio_to_openwebui u b (fillDefaults d) fn =
      convert_aistudio_to_openwebui u b d fn := by
  have hc : chunksOf (fillDefaults d) = (chunksOf d).map fillChunk := rfl
  have hm : resolveModel (fillDefaults d) = resolveModel d := rfl
  simp only [convert_aistudio_to_openwebui, hc, hm, foldl_fillChunk, List.map_eq_nil_iff]

/-! ### Claim C7 -/

/-- Claim C7: title resolution.  A supplied (nonempty) filename hint is
stripped of its directory part and extension and used as the title both at
top level and in the nested chat object.  With no hint, the title is the
first message's content when that message is a user message (truncated to 50
characters plus an ellipsis when longer than 50), and the fixed fallback
title otherwise (no messages, or first message not a user message).  An
empty-string hint counts as absent, matching Python string truthiness. -/
theorem claim_C7_title (u : Nat → String) (b : Nat) (data : AIStudioData) (fn : Option String)
    (rec : OpenWebUIChat) (hrec : rec ∈ convert_aistudio_to_openwebui u b data fn) :
    (∀ f, fn = some f → f ≠ "" → rec.title = stripTitle f ∧ rec.chat.title = stripTitle f) ∧
    (fn = none →
      (rec.chat.messages = [] →
         rec.title = "AIStudio Conversation" ∧ rec.chat.title = "AIStudio Conversation") ∧
      (∀ mm rest, rec.chat.messages = mm :: rest →
         (mm.role = "user" →
            (mm.content.length ≤ 50 → rec.title = mm.content ∧ rec.chat.title = mm.content) ∧
            (mm.content.length > 50 →
               rec.title = mm.content.take 50 ++ "..." ∧
               rec.chat.title = mm.content.take 50 ++ "...")) ∧
         (mm.role ≠ "user" →
            rec.title = "AIStudio Conversation" ∧
            rec.chat.title = "AIStudio Conversation"))) := by
  unfold convert_aistudio_to_openwebui at hrec
  by_cases h : chunksOf data = []
  · rw [if_pos h] at hrec
    simp at hrec
  · rw [if_neg h, List.mem_singleton] at hrec
    subst hrec
    constructor
    · intro f hf hf'
      subst hf
      constructor <;> simp [optStrTruthy, hf']
    · intro hfn
      subst hfn
      constructor
      · intro hml
        have hml' : (List.foldl (processChunk (resolveModel data) b u) initConvState
            (chunksOf data)).messages_list = [] := hml
        constructor <;> simp [optStrTruthy, hml']
      · intro mm rest hml
        have hml' : (List.foldl (processChunk (resolveModel data) b u) initConvState
            (chunksOf data)).messages_list = mm :: rest := hml
        refine ⟨?_, ?_⟩
        · intro hu
          refine ⟨?_, ?_⟩
          · intro hlen
            have hnot : ¬ mm.content.length > 50 := by omega
            constructor <;> simp [optStrTruthy, hml', hu, hnot]
          · intro hlen
            constructor <;> simp [optStrTruthy, hml', hu, hlen]
        · intro hu
          constructor <;> simp [optStrTruthy, hml', hu]

/-- Witness for claim C7: the filename hint branch at a concrete path. -/
theorem claim_C7_witness :
    recB.title = stripTitle "exports/chat_2024.json" ∧
    recB.chat.title = stripTitle "exports/chat_2024.json" ∧
    stripTitle "exports/chat_2024.json" = "chat_2024" := by
  have h := (claim_C7_title uuidA 7 dataA (some "exports/chat_2024.json") recB recB_mem).1
    "exports/chat_2024.json" rfl (by decide)
  exact ⟨h.1, h.2, by decide⟩

/-! ### Claims C2 and C5: the chain invariant of the conversion loop -/

lemma dictContains_eq_true_iff (d : List (String × Message)) (k : String) :
    dictContains d k = true ↔ ∃ p ∈ d, p.1 = k := by
  induction d with
  | nil => simp [dictContains]
  | cons p rest ih =>
    by_cases h : p.1 = k
    · constructor
      · intro _
        exact ⟨p, List.mem_cons_self p rest, h⟩
      · intro _
        simp [dictContains, h]
    · simp only [dictContains, if_neg h, ih]
      constructor
      · rintro ⟨q, hq, hqk⟩
        exact ⟨q, List.mem_cons_of_mem p hq, hqk⟩
      · rintro ⟨q, hq, hqk⟩
        rcases List.mem_cons.mp hq with rfl | hq2
        · exact absurd hqk h
        · exact ⟨q, hq2, hqk⟩

lemma dictInsert_fresh (d : List (String × Message)) (k : String) (v : Message)
    (h : ∀ p ∈ d, p.1 ≠ k) : dictInsert d k v = d ++ [(k, v)] := by
  induction d with
  | nil => rfl
  | cons p rest ih =>
    have hp : p.1 ≠ k := h p (List.mem_cons_self p rest)
    simp only [dictInsert, if_neg hp, List.cons_append]
    rw [ih fun q hq => h q (List.mem_cons_of_mem p hq)]

/-- The invariant maintained by the chunk loop: the dict mirrors the list,
ids are consecutive uuids, the parent pointer is the last id, and the
messages form a linear parent/child chain. -/
structure ChainInv (uuid : Nat → String) (st : ConvState) : Prop where
  len_eq : st.message_index = st.messages_list.length
  dict_eq : st.messages = st.messages_list.map fun mm => (mm.id, mm)
  id_eq : ∀ k (hk : k < st.messages_list.length),
    (st.messages_list.get ⟨k, hk⟩).id = uuid (2 + k)
  parent_ptr : st.parent_id = (if st.messages_list.length = 0 then none
    else some (uuid (2 + (st.messages_list.length - 1))))
  parent_eq : ∀ k (hk : k < st.messages_list.length),
    (st.messages_list.get ⟨k, hk⟩).parentId =
      (if k = 0 then none else some (uuid (2 + (k - 1))))
  children_eq : ∀ k (hk : k < st.messages_list.length),
    (st.messages_list.get ⟨k, hk⟩).childrenIds =
      (if k + 1 = st.messages_list.length then [] else [uuid (2 + (k + 1))])

lemma chainInv_init (uuid : Nat → String) : ChainInv uuid initConvState := by
  refine ⟨rfl, rfl, ?_, rfl, ?_, ?_⟩ <;>
    · intro k hk
      exact absurd hk (by simp [initConvState])

lemma chainInv_turnStep (uuid : Nat → String) (hinj : Function.Injective uuid)
    (hne : ∀ nn, uuid nn ≠ "") (m : String) (b : Nat) (st : ConvState) (c : Chunk)
    (h : ChainInv uuid st) : ChainInv uuid (turnStep m b uuid st c) := by
  have hmsgid : (turnMessage m b uuid st c).id = uuid (2 + st.messages_list.length) := by
    show uuid (2 + st.message_index) = uuid (2 + st.messages_list.length)
    rw [h.len_eq]
  have hfresh : ∀ p ∈ st.messages, p.1 ≠ (turnMessage m b uuid st c).id := by
    intro p hp
    rw [h.dict_eq] at hp
    obtain ⟨mm, hmm, rfl⟩ := List.mem_map.mp hp
    obtain ⟨⟨k, hk⟩, rfl⟩ := List.mem_iff_get.mp hmm
    rw [h.id_eq k hk, hmsgid]
    intro heq
    have hkk := hinj heq
    omega
  have hins : dictInsert st.messages (turnMessage m b uuid st c).id (turnMessage m b uuid st c)
      = st.messages ++ [((turnMessage m b uuid st c).id, turnMessage m b uuid st c)] :=
    dictInsert_fresh _ _ _ hfresh
  rcases hpar : st.parent_id with _ | pid
  · -- first message: no parent pointer yet, so the list was empty
    have hn0 : st.messages_list.length = 0 := by
      by_contra hne0
      have hpp := h.parent_ptr
      rw [hpar, if_neg hne0] at hpp
      exact Option.noConfusion hpp
    have hnil : st.messages_list = [] := List.length_eq_zero.mp hn0
    have hdnil : st.messages = [] := by
      rw [h.dict_eq, hnil]
      rfl
    have hstep : turnStep m b uuid st c =
        { messages := [((turnMessage m b uuid st c).id, turnMessage m b uuid st c)],
          messages_list := [turnMessage m b uuid st c],
          parent_id := some (turnMessage m b uuid st c).id,
          pending_thoughts :=
            if roleOf c = "assistant" ∧ st.pending_thoughts ≠ [] then []
            else st.pending_thoughts,
          message_index := st.message_index + 1 } := by
      simp only [turnStep, hpar, hins, hdnil, hnil]
      rfl
    rw [hstep]
    refine ⟨?_, rfl, ?_, ?_, ?_, ?_⟩
    · show st.message_index + 1 = 1
      rw [h.len_eq, hn0]
    · intro k hk
      have hk1 : k = 0 := by
        have : k < 1 := hk
        omega
      subst hk1
      show (turnMessage m b uuid st c).id = uuid (2 + 0)
      rw [hmsgid, hn0]
    · show some (turnMessage m b uuid st c).id = some (uuid (2 + (1 - 1)))
      rw [hmsgid, hn0]
    · intro k hk
      have hk1 : k = 0 := by
        have : k < 1 := hk
        omega
      subst hk1
      show (turnMessage m b uuid st c).parentId = (if 0 = 0 then none else _)
      rw [if_pos rfl]
      show st.parent_id = none
      exact hpar
    · intro k hk
      have hk1 : k = 0 := by
        have : k < 1 := hk
        omega
      subst hk1
      show ([] : List String) = (if 0 + 1 = 1 then [] else _)
      rw [if_pos rfl]
  · -- later message: the previous message exists and is linked
    have hn1 : st.messages_list.length ≠ 0 := by
      intro hz
      have hpp := h.parent_ptr
      rw [hpar, if_pos hz] at hpp
      exact Option.noConfusion hpp
    have hpid : pid = uuid (2 + (st.messages_list.length - 1)) := by
      have hpp := h.parent_ptr
      rw [hpar, if_neg hn1] at hpp
      exact Option.some.inj hpp
    have hpne : pid ≠ "" := by
      rw [hpid]
      exact hne _
    have hmsg_ne : (turnMessage m b uuid st c).id ≠ pid := by
      rw [hmsgid, hpid]
      intro heq
      have := hinj heq
      omega
    have hcontains : dictContains (st.messages ++
        [((turnMessage m b uuid st c).id, turnMessage m b uuid st c)]) pid = true := by
      rw [dictContains_eq_true_iff]
      have hkk : st.messages_list.length - 1 < st.messages_list.length := by omega
      refine ⟨((st.messages_list.get ⟨st.messages_list.length - 1, hkk⟩).id,
        st.messages_list.get ⟨st.messages_list.length - 1, hkk⟩), ?_, ?_⟩
      · apply List.mem_append_left
        rw [h.dict_eq]
        exact List.mem_map.mpr ⟨_, List.get_mem _ _ _, rfl⟩
      · show (st.messages_list.get ⟨st.messages_list.length - 1, hkk⟩).id = pid
        rw [h.id_eq _ hkk, hpid]
    have hstep : turnStep m b uuid st c =
        { messages := appendChildDict (st.messages ++
            [((turnMessage m b uuid st c).id, turnMessage m b uuid st c)]) pid
            (turnMessage m b uuid st c).id,
          messages_list := appendChildList (st.messages_list ++ [turnMessage m b uuid st c])
            pid (turnMessage m b uuid st c).id,
          parent_id := some (turnMessage m b uuid st c).id,
          pending_thoughts :=
            if roleOf c = "assistant" ∧ st.pending_thoughts ≠ [] then []
            else st.pending_thoughts,
          message_index := st.message_index + 1 } := by
      simp only [turnStep, hpar, hins]
      rw [if_pos ⟨hpne, hcontains⟩]
    rw [hstep]
    have hfid : ∀ x : Message,
        (if x.id = pid then addChildMsg x (turnMessage m b uuid st c).id else x).id = x.id := by
      intro x
      split <;> simp [addChildMsg]
    have hfpar : ∀ x : Message,
        (if x.id = pid then addChildMsg x (turnMessage m b uuid st c).id else x).parentId
          = x.parentId := by
      intro x
      split <;> simp [addChildMsg]
    have hlen : (appendChildList (st.messages_list ++ [turnMessage m b uuid st c]) pid
        (turnMessage m b uuid st c).id).length = st.messages_list.length + 1 := by
      simp [appendChildList]
    refine ⟨?_, ?_, ?_, ?_, ?_, ?_⟩
    · show st.message_index + 1 = _
      rw [hlen, h.len_eq]
    · show appendChildDict _ _ _ = _
      rw [h.dict_eq]
      simp only [appendChildDict, appendChildList, List.map_append, List.map_map]
      congr 1
      · congr 1
        funext mm
        by_cases hmm : mm.id = pid <;> simp [hmm, addChildMsg]
      · simp [hmsg_ne]
    · intro k hk
      have hk' : k < st.messages_list.length + 1 := by
        rw [hlen] at hk
        exact hk
      rw [List.get_eq_getElem]
      simp only [appendChildList, List.getElem_map]
      rw [hfid]
      by_cases hkn : k < st.messages_list.length
      · rw [List.getElem_append_left hkn]
        have hh := h.id_eq k hkn
        rw [List.get_eq_getElem] at hh
        exact hh
      · have hkeq : k = st.messages_list.length := by omega
        rw [List.getElem_concat_length _ _ _ hkeq, hmsgid, hkeq]
    · show some (turnMessage m b uuid st c).id = _
      rw [hlen, hmsgid]
      simp
    · intro k hk
      have hk' : k < st.messages_list.length + 1 := by
        rw [hlen] at hk
        exact hk
      rw [List.get_eq_getElem]
      simp only [appendChildList, List.getElem_map]
      rw [hfpar]
      by_cases hkn : k < st.messages_list.length
      · rw [List.getElem_append_left hkn]
        have hh := h.parent_eq k hkn
        rw [List.get_eq_getElem] at hh
        exact hh
      · have hkeq : k = st.messages_list.length := by omega
        rw [List.getElem_concat_length _ _ _ hkeq]
        show st.parent_id = _
        rw [hpar, hpid, if_neg (show ¬ k = 0 by omega), hkeq]
    · intro k hk
      have hk' : k < st.messages_list.length + 1 := by
        rw [hlen] at hk
        exact hk
      rw [List.get_eq_getElem]
      simp only [appendChildList, List.getElem_map, List.length_map, List.length_append,
        List.length_singleton]
      by_cases hkn : k < st.messages_list.length
      · rw [List.getElem_append_left hkn]
        have hidk := h.id_eq k hkn
        rw [List.get_eq_getElem] at hidk
        have hchk := h.children_eq k hkn
        rw [List.get_eq_getElem] at hchk
        by_cases hklast : k = st.messages_list.length - 1
        · have hpeq : (st.messages_list[k]).id = pid := by
            rw [hidk, hpid, hklast]
          rw [if_pos hpeq]
          have hch0 : (st.messages_list[k]).childrenIds = [] := by
            rw [hchk, if_pos (by omega)]
          show (st.messages_list[k]).childrenIds ++ [(turnMessage m b uuid st c).id] = _
          rw [hch0, hmsgid, if_neg (by omega)]
          have : 2 + (k + 1) = 2 + st.messages_list.length := by omega
          rw [this]
          rfl
        · have hpne2 : (st.messages_list[k]).id ≠ pid := by
            rw [hidk, hpid]
            intro heq
            have := hinj heq
            omega
          rw [if_neg hpne2, hchk, if_neg (by omega), if_neg (by omega)]
      · have hkeq : k = st.messages_list.length := by omega
        rw [List.getElem_concat_length _ _ _ hkeq, if_neg hmsg_ne,
          if_pos (show k + 1 = st.messages_list.length + 1 by omega)]
        rfl

lemma chainInv_processChunk (uuid : Nat → String) (hinj : Function.Injective uuid)
    (hne : ∀ nn, uuid nn ≠ "") (m : String) (b : Nat) (st : ConvState) (c : Chunk)
    (h : ChainInv uuid st) : ChainInv uuid (processChunk m b uuid st c) := by
  by_cases hth : c.isThought.getD false = true
  · rw [processChunk_isThought m b uuid st c hth]
    exact ⟨h.len_eq, h.dict_eq, h.id_eq, h.parent_ptr, h.parent_eq, h.children_eq⟩
  · have h' : c.isThought.getD false = false := by simpa using hth
    rw [processChunk_turn m b uuid st c h']
    exact chainInv_turnStep uuid hinj hne m b st c h

lemma chainInv_foldl (uuid : Nat → String) (hinj : Function.Injective uuid)
    (hne : ∀ nn, uuid nn ≠ "") (m : String) (b : Nat) :
    ∀ (l : List Chunk) (st : ConvState), ChainInv uuid st →
      ChainInv uuid (List.foldl (processChunk m b uuid) st l) := by
  intro l
  induction l with
  | nil => intro st h; exact h
  | cons c cs ih =>
    intro st h
    rw [List.foldl_cons]
    exact ih _ (chainInv_processChunk uuid hinj hne m b st c h)

lemma convert_components (u : Nat → String) (b : Nat) (data : AIStudioData)
    (fn : Option String) (rec : OpenWebUIChat)
    (hrec : rec ∈ convert_aistudio_to_openwebui u b data fn) :
    rec.chat.messages = (List.foldl (processChunk (resolveModel data) b u) initConvState
        (chunksOf data)).messages_list ∧
    rec.chat.history.messages = (List.foldl (processChunk (resolveModel data) b u) initConvState
        (chunksOf data)).messages := by
  unfold convert_aistudio_to_openwebui at hrec
  by_cases h : chunksOf data = []
  · rw [if_pos h] at hrec
    simp at hrec
  · rw [if_neg h, List.mem_singleton] at hrec
    subst hrec
    exact ⟨rfl, rfl⟩

/-- Claim C2: in every produced record the messages form a linear chain:
each message except the first has `parentId` equal to the id of the message
immediately before it in the list, that preceding message's `childrenIds` is
exactly the one-element list holding this message's id, the first message's
`parentId` is `none`, and the last message's `childrenIds` is empty.  The
uuid stream is assumed injective with nonempty values, which is what
`uuid.uuid4()` provides. -/
theorem claim_C2_linear_chain (u : Nat → String) (b : Nat) (data : AIStudioData)
    (fn : Option String) (hinj : Function.Injective u) (hne : ∀ nn, u nn ≠ "")
    (rec : OpenWebUIChat) (hrec : rec ∈ convert_aistudio_to_openwebui u b data fn) :
    (∀ (k : Nat) (mk mk1 : Message), rec.chat.messages.get? k = some mk →
       rec.chat.messages.get? (k + 1) = some mk1 →
       mk1.parentId = some mk.id ∧ mk.childrenIds = [mk1.id]) ∧
    (∀ mk : Message, rec.chat.messages.get? 0 = some mk → mk.parentId = none) ∧
    (∀ mk : Message, rec.chat.messages.getLast? = some mk → mk.childrenIds = []) := by
  obtain ⟨hML, _⟩ := convert_components u b data fn rec hrec
  have hInv := chainInv_foldl u hinj hne (resolveModel data) b (chunksOf data) initConvState
    (chainInv_init u)
  refine ⟨?_, ?_, ?_⟩
  · intro k mk mk1 h1 h2
    rw [hML] at h1 h2
    obtain ⟨hb1, he1⟩ := List.get?_eq_some.mp h1
    obtain ⟨hb2, he2⟩ := List.get?_eq_some.mp h2
    constructor
    · rw [← he2, ← he1]
      have hp := hInv.parent_eq (k + 1) hb2
      rw [if_neg (show ¬ k + 1 = 0 by omega)] at hp
      rw [hp, hInv.id_eq k hb1]
      simp
    · rw [← he1, ← he2]
      have hc := hInv.children_eq k hb1
      rw [if_neg (show ¬ k + 1 = _ by omega)] at hc
      rw [hc, hInv.id_eq (k + 1) hb2]
  · intro mk h1
    rw [hML] at h1
    obtain ⟨hb1, he1⟩ := List.get?_eq_some.mp h1
    rw [← he1]
    have hp := hInv.parent_eq 0 hb1
    rw [if_pos rfl] at hp
    exact hp
  · intro mk h1
    rw [hML, List.getLast?_eq_getElem?] at h1
    obtain ⟨hb1, he1⟩ := List.getElem?_eq_some.mp h1
    rw [← he1]
    have hc := hInv.children_eq _ hb1
    rw [List.get_eq_getElem] at hc
    rw [if_pos (by omega)] at hc
    exact hc

/-- Witness for claim C2: the two-message conversation `dataA`; the second
message points back at the first, and the first lists exactly the second as
its child. -/
theorem claim_C2_witness :
    ((recA.chat.messages.get? 1).getD default).parentId
        = some ((recA.chat.messages.get? 0).getD default).id ∧
    ((recA.chat.messages.get? 0).getD default).childrenIds
        = [((recA.chat.messages.get? 1).getD default).id] :=
  (claim_C2_linear_chain uuidA 7 dataA none uuidA_inj uuidA_ne recA recA_mem).1 0
    ((recA.chat.messages.get? 0).getD default) ((recA.chat.messages.get? 1).getD default)
    (by decide) (by decide)

/-- Claim C5: in every produced record the `history.messages` dict is exactly
the message list reindexed by id: the entries are the pairs `(m.id, m)` for
the messages `m` of the list in order.  In particular the key set equals the
id set of the list and every key maps to the identical message.  The uuid
stream is assumed injective with nonempty values, as `uuid.uuid4()`
provides. -/
theorem claim_C5_map_list (u : Nat → String) (b : Nat) (data : AIStudioData)
    (fn : Option String) (hinj : Function.Injective u) (hne : ∀ nn, u nn ≠ "")
    (rec : OpenWebUIChat) (hrec : rec ∈ convert_aistudio_to_openwebui u b data fn) :
    rec.chat.history.messages = rec.chat.messages.map fun mm => (mm.id, mm) := by
  obtain ⟨hML, hMD⟩ := convert_components u b data fn rec hrec
  have hInv := chainInv_foldl u hinj hne (resolveModel data) b (chunksOf data) initConvState
    (chainInv_init u)
  rw [hML, hMD]
  exact hInv.dict_eq

/-- Witness for claim C5 at the concrete conversation `dataA`. -/
theorem claim_C5_witness :
    recA.chat.history.messages = recA.chat.messages.map fun mm => (mm.id, mm) :=
  claim_C5_map_list uuidA 7 dataA none uuidA_inj uuidA_ne recA recA_mem
